import Mathlib

/-!
Shallow embedding of the argsplus argument-parsing library (argsplus.hxx).

Strings are modelled as lists of characters.  The stream-extraction
behaviour of `ValueBase::ParseValue` (operator>> on a fresh
istringstream followed by the in_avail / fail check) is modelled by
explicit extraction functions returning the extracted value, the
unread remainder of the buffer, and the fail flag.  The type of a C++
double is modelled by exact rationals: every numeric literal appearing
in the claims (3.5, 25.0) denotes the same value in both models.

Every option created by AddOption is an Option<T>, which inherits
ValueBase and hence always casts successfully to ValueRoot inside
ParseArgs: in this library every flag is value-bearing, so the
embedding gives each registered option a converter, and the dead
branches of ParseArgs guarded by a failing dynamic_cast are omitted.
-/

namespace Argsplus

abbrev Str := List Char

/-- Whitespace for the default C++ locale, as used by operator>> skipping. -/
def isSpace (c : Char) : Bool :=
  (c == ' ') || (c == '\t') || (c == '\n') || (c == Char.ofNat 11) ||
    (c == Char.ofNat 12) || (c == '\r')

/-- Accumulate a decimal digit string into a natural number. -/
def natOfDigits (ds : Str) : Nat :=
  ds.foldl (fun a c => a * 10 + (c.toNat - 48)) 0

/-- Skip leading whitespace, as stream extraction does with skipws set. -/
def skipWS (s : Str) : Str := s.dropWhile isSpace

/-- Read an optional sign followed by a decimal digit run.  Returns
(none, rest-after-sign) when no digit is present (extraction failure),
or (some (negative, magnitude), rest-after-digits). -/
def readIntField (s : Str) : Option (Bool × Nat) × Str :=
  let signed : Bool × Str :=
    match s with
    | '-' :: t => (true, t)
    | '+' :: t => (false, t)
    | t => (false, t)
  let ds := signed.2.takeWhile Char.isDigit
  let rest := signed.2.dropWhile Char.isDigit
  if ds = [] then (none, signed.2) else (some (signed.1, natOfDigits ds), rest)

def intMax : Int := 2 ^ 31 - 1
def intMin : Int := -(2 ^ 31)
def uintMax : Nat := 2 ^ 32 - 1

/-- Stream extraction of a C++ int: (value, unread remainder, failbit). -/
def extractInt (s : Str) : Int × Str × Bool :=
  let s0 := skipWS s
  match readIntField s0 with
  | (none, r) => (0, r, true)
  | (some (neg, n), r) =>
    let v : Int := if neg then -(n : Int) else (n : Int)
    if v < intMin ∨ intMax < v then ((if neg then intMin else intMax), r, true)
    else (v, r, false)

/-- Stream extraction of a C++ unsigned int: a minus sign wraps modulo 2^32. -/
def extractUInt (s : Str) : Nat × Str × Bool :=
  let s0 := skipWS s
  match readIntField s0 with
  | (none, r) => (0, r, true)
  | (some (neg, n), r) =>
    if uintMax < n then (uintMax, r, true)
    else ((if neg then (2 ^ 32 - n % 2 ^ 32) % 2 ^ 32 else n), r, false)

/-- Stream extraction of a bool without boolalpha: an integer is read;
0 yields false, 1 yields true, anything else stores true with failbit. -/
def extractBool (s : Str) : Bool × Str × Bool :=
  match extractInt s with
  | (_, r, true) => (false, r, true)
  | (v, r, false) =>
    if v = 0 then (false, r, false)
    else if v = 1 then (true, r, false)
    else (true, r, true)

/-- Stream extraction of a C++ double, modelled exactly over the
rationals: optional sign, digits with an optional fraction part, and an
optional exponent part (consumed only when well formed). -/
def extractDouble (s : Str) : Rat × Str × Bool :=
  let s0 := skipWS s
  let signed : Bool × Str :=
    match s0 with
    | '-' :: t => (true, t)
    | '+' :: t => (false, t)
    | t => (false, t)
  let d1 := signed.2.takeWhile Char.isDigit
  let r1 := signed.2.dropWhile Char.isDigit
  let frac : Str × Str :=
    match r1 with
    | '.' :: t => (t.takeWhile Char.isDigit, t.dropWhile Char.isDigit)
    | t => ([], t)
  let d2 := frac.1
  let r2 := frac.2
  if d1 = [] ∧ d2 = [] then (0, s0, true)
  else
    let exp : Int × Str :=
      match r2 with
      | e :: t =>
        if e = 'e' ∨ e = 'E' then
          let esigned : Bool × Str :=
            match t with
            | '-' :: u => (true, u)
            | '+' :: u => (false, u)
            | u => (false, u)
          let eds := esigned.2.takeWhile Char.isDigit
          if eds = [] then ((0 : Int), r2)
          else ((if esigned.1 then -(natOfDigits eds : Int) else (natOfDigits eds : Int)),
            esigned.2.dropWhile Char.isDigit)
        else ((0 : Int), r2)
      | [] => ((0 : Int), r2)
    let v : Rat :=
      mkRat ((if signed.1 then -1 else 1) * (natOfDigits (d1 ++ d2) : Int)
          * (10 ^ exp.1.toNat : Nat))
        (10 ^ d2.length * 10 ^ (-exp.1).toNat)
    (v, exp.2, false)

/-- Stream extraction of a std::string: skip whitespace, then take the
run of non-whitespace characters; extracting nothing sets failbit and
leaves the string empty. -/
def extractStr (s : Str) : Str × Str × Bool :=
  let s0 := skipWS s
  let tok := s0.takeWhile (fun c => !isSpace c)
  let rest := s0.dropWhile (fun c => !isSpace c)
  if tok = [] then ([], rest, true) else (tok, rest, false)

/-- The value types instantiated for ValueBase in the source and its test. -/
inductive Conv where
  | cbool
  | cint
  | cuint
  | cdouble
  | cstr
deriving DecidableEq

/-- A typed stored value. -/
inductive Val where
  | vbool (b : Bool)
  | vint (n : Int)
  | vuint (n : Nat)
  | vdouble (q : Rat)
  | vstr (s : Str)
deriving DecidableEq

/-- Dispatch of operator>> on the stored value type: result value,
unread remainder of the stream buffer, and the fail flag. -/
def sstreamExtract : Conv → Str → Val × Str × Bool
  | Conv.cbool, s => let r := extractBool s; (Val.vbool r.1, r.2.1, r.2.2)
  | Conv.cint, s => let r := extractInt s; (Val.vint r.1, r.2.1, r.2.2)
  | Conv.cuint, s => let r := extractUInt s; (Val.vuint r.1, r.2.1, r.2.2)
  | Conv.cdouble, s => let r := extractDouble s; (Val.vdouble r.1, r.2.1, r.2.2)
  | Conv.cstr, s => let r := extractStr s; (Val.vstr r.1, r.2.1, r.2.2)

/-- ValueBase::ParseValue: extract into the stored value, then fail when
unread characters remain in the buffer (in_avail > 0) or the stream
failed; the extracted value is stored in either case. -/
def parseValue (c : Conv) (s : Str) : Bool × Val :=
  let r := sstreamExtract c s
  (r.2.1.isEmpty && !r.2.2, r.1)

/-- Parser configuration members of ArgumentParser. -/
structure Config where
  longPfx : Str
  shortPfx : Str
  longSep : Str
  optTerm : Str
  joinedShort : Bool
  joinedLong : Bool
  separateShort : Bool
  separateLong : Bool
deriving DecidableEq

/-- The constructor defaults of ArgumentParser. -/
def defaultConfig : Config :=
  { longPfx := "--".toList
    shortPfx := "-".toList
    longSep := "=".toList
    optTerm := "--".toList
    joinedShort := true
    joinedLong := true
    separateShort := true
    separateLong := true }

/-- A registered Option: matcher flag sets, name, help, matched state,
and its typed stored value. -/
structure Opt where
  shorts : List Char
  longs : List Str
  name : Str
  help : Str
  matched : Bool
  conv : Conv
  val : Val
deriving DecidableEq

/-- A registered Positional. -/
structure Pos where
  name : Str
  help : Str
  matched : Bool
  conv : Conv
  val : Val
deriving DecidableEq

/-- The parser state touched by ParseArgs. -/
structure PState where
  cfg : Config
  error : Str
  options : List Opt
  positionals : List Pos
deriving DecidableEq

/-- Update the element at an index, when present. -/
def updAt {α : Type} : List α → Nat → (α → α) → List α
  | [], _, _ => []
  | a :: as, 0, f => f a :: as
  | a :: as, n + 1, f => a :: updAt as n f

/-- Index of the first element satisfying the predicate: the linear
scan shared by MatchOption and GetNextPositional. -/
def firstIdx {α : Type} (p : α → Bool) : List α → Option Nat
  | [] => none
  | a :: as => if p a then some 0 else (firstIdx p as).map (· + 1)

/-- MatchOption on a long flag: index of the first registered option
whose matcher contains the string. -/
def matchLongIdx (opts : List Opt) (n : Str) : Option Nat :=
  firstIdx (fun o => o.longs.contains n) opts

/-- MatchOption on a short flag: index of the first registered option
whose matcher contains the character. -/
def matchShortIdx (opts : List Opt) (c : Char) : Option Nat :=
  firstIdx (fun o => o.shorts.contains c) opts

/-- GetNextPositional: index of the first positional not yet matched. -/
def nextPosIdx (ps : List Pos) : Option Nat :=
  firstIdx (fun p => !p.matched) ps

def setError (s : PState) (e : Str) : PState := { s with error := e }

def setOptMatched (s : PState) (i : Nat) : PState :=
  { s with options := updAt s.options i (fun o => { o with matched := true }) }

def setOptVal (s : PState) (i : Nat) (v : Val) : PState :=
  { s with options := updAt s.options i (fun o => { o with val := v }) }

def setPosVal (s : PState) (j : Nat) (v : Val) : PState :=
  { s with positionals := updAt s.positionals j (fun p => { p with val := v }) }

def setPosMatched (s : PState) (j : Nat) : PState :=
  { s with positionals := updAt s.positionals j (fun p => { p with matched := true }) }

def optConv (s : PState) (i : Nat) : Conv :=
  match s.options[i]? with
  | some o => o.conv
  | none => Conv.cstr

def posConv (s : PState) (j : Nat) : Conv :=
  match s.positionals[j]? with
  | some p => p.conv
  | none => Conv.cstr

def posName (s : PState) (j : Nat) : Str :=
  match s.positionals[j]? with
  | some p => p.name
  | none => []

/-- A single quote character, as it appears in the error messages. -/
def sq : Char := Char.ofNat 39

def errUnmatched (arg : Str) : Str :=
  "Flag could not be matched: ".toList ++ arg

def errInvalidValue (arg : Str) : Str :=
  "Flag ".toList ++ [sq] ++ arg ++ [sq] ++ " received an invalid value".toList

def errMissingValue (arg : Str) : Str :=
  "Flag ".toList ++ [sq] ++ arg ++ [sq] ++
    " requires an argument but received none".toList

def errDisallowedJoined (arg : Str) : Str :=
  "Flag ".toList ++ [sq] ++ arg ++ [sq] ++
    " was passed a joined argument, but these are disallowed".toList

def errDisallowedSeparate (arg : Str) : Str :=
  "Flag ".toList ++ [sq] ++ arg ++ [sq] ++
    " was passed a separate argument, but these are disallowed".toList

def errInvalidPositional (name : Str) : Str :=
  "Positional ".toList ++ [sq] ++ name ++ [sq] ++
    " received an invalid value".toList

def errNoPositional (chunk : Str) : Str :=
  "Passed in argument, but no positional arguments were ready to receive it: ".toList
    ++ chunk

/-- The test chunk.find(long prefix) == 0 && chunk.size() > prefix size. -/
def IsLongToken (cfg : Config) (chunk : Str) : Prop :=
  cfg.longPfx.isPrefixOf chunk = true ∧ cfg.longPfx.length < chunk.length

instance (cfg : Config) (chunk : Str) : Decidable (IsLongToken cfg chunk) :=
  inferInstanceAs (Decidable (_ ∧ _))

/-- The corresponding test for the short prefix. -/
def IsShortToken (cfg : Config) (chunk : Str) : Prop :=
  cfg.shortPfx.isPrefixOf chunk = true ∧ cfg.shortPfx.length < chunk.length

instance (cfg : Config) (chunk : Str) : Decidable (IsShortToken cfg chunk) :=
  inferInstanceAs (Decidable (_ ∧ _))

/-- Index of the first occurrence of pat as a contiguous substring
(std::string::find). -/
def findSubstr (pat : Str) : Str → Option Nat
  | [] => if pat = [] then some 0 else none
  | c :: cs =>
    if pat.isPrefixOf (c :: cs) then some 0
    else (findSubstr pat cs).map (· + 1)

/-- Splitting of the stripped long chunk on the configured separator:
an empty separator disables the search (argchunk.npos), otherwise the
first occurrence splits the chunk into the flag name and the joined
value after the separator. -/
def longSplit (sep : Str) (argchunk : Str) : Str × Option Str :=
  match (if sep = [] then none else findSubstr sep argchunk) with
  | some i => (argchunk.take i, some (argchunk.drop (i + sep.length)))
  | none => (argchunk, none)

/-- Outcome of handling one chunk: an immediate return from ParseArgs,
continuation with the remaining chunks, or continuation after also
consuming the next chunk as a separate value. -/
inductive Step where
  | ret (r : Bool × PState)
  | next (s : PState)
  | skip (s : PState)
deriving DecidableEq

/-- The long-flag branch of the ParseArgs loop body, applied to the
chunk with the long prefix stripped; the option argument is the next
chunk of the stream, for separate-value consumption. -/
def handleLong (s : PState) (argchunk : Str) (nx : Option Str) : Step :=
  let split := longSplit s.cfg.longSep argchunk
  match matchLongIdx s.options split.1 with
  | none => Step.ret (false, setError s (errUnmatched split.1))
  | some i =>
    let s1 := setOptMatched s i
    match split.2 with
    | some v =>
      if s1.cfg.joinedLong then
        let pv := parseValue (optConv s1 i) v
        let s2 := setOptVal s1 i pv.2
        if pv.1 then Step.next s2
        else Step.ret (false, setError s2 (errInvalidValue split.1))
      else Step.ret (false, setError s1 (errDisallowedJoined split.1))
    | none =>
      match nx with
      | none => Step.ret (false, setError s1 (errMissingValue split.1))
      | some next =>
        if s1.cfg.separateLong then
          let pv := parseValue (optConv s1 i) next
          let s2 := setOptVal s1 i pv.2
          if pv.1 then Step.skip s2
          else Step.ret (false, setError s2 (errInvalidValue split.1))
        else Step.ret (false, setError s1 (errDisallowedSeparate split.1))

/-- The short-flag branch of the ParseArgs loop body, applied to the
chunk with the short prefix stripped.  Every registered option is
value-bearing, so the cluster loop of the source handles its first
character and then breaks; the empty-cluster case, unreachable under
the size guard, runs the loop body zero times. -/
def handleShort (s : PState) (argchunk : Str) (nx : Option Str) : Step :=
  match argchunk with
  | [] => Step.next s
  | c :: cs =>
    match matchShortIdx s.options c with
    | none => Step.ret (false, setError s (errUnmatched [c]))
    | some i =>
      let s1 := setOptMatched s i
      if cs = [] then
        match nx with
        | none => Step.ret (false, setError s1 (errMissingValue [c]))
        | some next =>
          if s1.cfg.separateShort then
            let pv := parseValue (optConv s1 i) next
            let s2 := setOptVal s1 i pv.2
            if pv.1 then Step.skip s2
            else Step.ret (false, setError s2 (errInvalidValue [c]))
          else Step.ret (false, setError s1 (errDisallowedSeparate [c]))
      else
        if s1.cfg.joinedShort then
          let pv := parseValue (optConv s1 i) cs
          let s2 := setOptVal s1 i pv.2
          if pv.1 then Step.next s2
          else Step.ret (false, setError s2 (errInvalidValue [c]))
        else Step.ret (false, setError s1 (errDisallowedJoined [c]))

/-- The positional branch of the ParseArgs loop body. -/
def handlePositional (s : PState) (chunk : Str) : Step :=
  match nextPosIdx s.positionals with
  | none => Step.ret (false, setError s (errNoPositional chunk))
  | some j =>
    let pv := parseValue (posConv s j) chunk
    let s1 := setPosVal s j pv.2
    if pv.1 then Step.next (setPosMatched s1 j)
    else Step.ret (false, setError s1 (errInvalidPositional (posName s j)))

/-- Select the branch of the loop body for one chunk, as the if chain
of the source does; the terminator test is handled by the caller. -/
def stepChunk (terminated : Bool) (s : PState) (chunk : Str)
    (nx : Option Str) : Step :=
  if terminated = false ∧ IsLongToken s.cfg chunk then
    handleLong s (chunk.drop s.cfg.longPfx.length) nx
  else if terminated = false ∧ IsShortToken s.cfg chunk then
    handleShort s (chunk.drop s.cfg.shortPfx.length) nx
  else handlePositional s chunk

/-- The loop of ArgumentParser::ParseArgs, one chunk at a time.  The
boolean argument is the loop-local terminated flag.  When the handled
chunk was the last one, a next or (unreachable) skip outcome leaves
the loop immediately with success, exactly as the loop exit does. -/
def parseLoop : Bool → PState → List Str → Bool × PState
  | _, s, [] => (true, s)
  | terminated, s, chunk :: rest =>
    if terminated = false ∧ chunk = s.cfg.optTerm then
      parseLoop true s rest
    else
      match rest with
      | [] =>
        match stepChunk terminated s chunk none with
        | Step.ret r => r
        | Step.next s2 => (true, s2)
        | Step.skip s2 => (true, s2)
      | next :: rest2 =>
        match stepChunk terminated s chunk (some next) with
        | Step.ret r => r
        | Step.next s2 => parseLoop terminated s2 (next :: rest2)
        | Step.skip s2 => parseLoop terminated s2 rest2

/-- ParseArgs over a whole argument list, starting unterminated. -/
def ParseArgs (s : PState) (args : List Str) : Bool × PState :=
  parseLoop false s args

/-- Loop that treats every remaining token by the positional rule only,
exactly as the specification describes the terminated state. -/
def parseAllPositional : PState → List Str → Bool × PState
  | s, [] => (true, s)
  | s, chunk :: rest =>
    match nextPosIdx s.positionals with
    | none => (false, setError s (errNoPositional chunk))
    | some j =>
      let pv := parseValue (posConv s j) chunk
      let s1 := setPosVal s j pv.2
      if pv.1 then parseAllPositional (setPosMatched s1 j) rest
      else (false, setError s1 (errInvalidPositional (posName s j)))

/-! Concrete fixtures used by the claims: the declarations of the
bundled test program and of the specification scenarios. -/

/-- The option AddOption of a bool with matcher b, "bool". -/
def optBool : Opt :=
  { shorts := ['b'], longs := ["bool".toList], name := "bool".toList,
    help := [], matched := false, conv := Conv.cbool, val := Val.vbool false }

/-- The option AddOption of a double with matcher d, "double" and
default 25.0, as in the bundled test program. -/
def optDouble : Opt :=
  { shorts := ['d'], longs := ["double".toList], name := "DUBFLAG".toList,
    help := [], matched := false, conv := Conv.cdouble,
    val := Val.vdouble (mkRat 25 1) }

/-- The positional AddPositional of an unsigned int with default 17. -/
def posUInt : Pos :=
  { name := "MyPos".toList, help := [], matched := false,
    conv := Conv.cuint, val := Val.vuint 17 }

/-- A string positional with empty default. -/
def posStr : Pos :=
  { name := "POS".toList, help := [], matched := false,
    conv := Conv.cstr, val := Val.vstr [] }

/-- Parser with the bool option only, default configuration. -/
def stBool : PState :=
  { cfg := defaultConfig, error := [], options := [optBool], positionals := [] }

/-- Parser with the double option only, default configuration. -/
def stDouble : PState :=
  { cfg := defaultConfig, error := [], options := [optDouble], positionals := [] }

/-- Parser with the unsigned positional only, default configuration. -/
def stUInt : PState :=
  { cfg := defaultConfig, error := [], options := [], positionals := [posUInt] }

/-- Parser with the bool option and a string positional. -/
def stTerm : PState :=
  { cfg := defaultConfig, error := [], options := [optBool],
    positionals := [posStr] }

/-- Parser with the unsigned positional and a stale error message left
over from an earlier failed parse. -/
def stStale : PState :=
  { cfg := defaultConfig, error := errUnmatched ['x'], options := [],
    positionals := [posUInt] }

/-- Configuration with the long-value separator set to the empty string. -/
def cfgNoSep : Config := { defaultConfig with longSep := [] }

/-- Parser with the double option under the empty-separator configuration. -/
def stNoSep : PState :=
  { cfg := cfgNoSep, error := [], options := [optDouble], positionals := [] }

/-! Helper lemmas about the state operations. -/

@[simp]
theorem setOptMatched_error (s : PState) (i : Nat) :
    (setOptMatched s i).error = s.error := rfl

@[simp]
theorem setOptVal_error (s : PState) (i : Nat) (v : Val) :
    (setOptVal s i v).error = s.error := rfl

@[simp]
theorem setPosVal_error (s : PState) (j : Nat) (v : Val) :
    (setPosVal s j v).error = s.error := rfl

@[simp]
theorem setPosMatched_error (s : PState) (j : Nat) :
    (setPosMatched s j).error = s.error := rfl

@[simp]
theorem setError_error (s : PState) (e : Str) : (setError s e).error = e := rfl

@[simp]
theorem setOptMatched_cfg (s : PState) (i : Nat) :
    (setOptMatched s i).cfg = s.cfg := rfl

@[simp]
theorem setOptVal_cfg (s : PState) (i : Nat) (v : Val) :
    (setOptVal s i v).cfg = s.cfg := rfl

@[simp]
theorem setPosVal_cfg (s : PState) (j : Nat) (v : Val) :
    (setPosVal s j v).cfg = s.cfg := rfl

@[simp]
theorem setPosMatched_cfg (s : PState) (j : Nat) :
    (setPosMatched s j).cfg = s.cfg := rfl

@[simp]
theorem setError_options (s : PState) (e : Str) :
    (setError s e).options = s.options := rfl

@[simp]
theorem setError_positionals (s : PState) (e : Str) :
    (setError s e).positionals = s.positionals := rfl

@[simp]
theorem setOptMatched_positionals (s : PState) (i : Nat) :
    (setOptMatched s i).positionals = s.positionals := rfl

@[simp]
theorem setOptVal_positionals (s : PState) (i : Nat) (v : Val) :
    (setOptVal s i v).positionals = s.positionals := rfl

@[simp]
theorem setPosVal_options (s : PState) (j : Nat) (v : Val) :
    (setPosVal s j v).options = s.options := rfl

@[simp]
theorem setPosMatched_options (s : PState) (j : Nat) :
    (setPosMatched s j).options = s.options := rfl

theorem updAt_get {α : Type} :
    ∀ (l : List α) (i : Nat) (f : α → α), (updAt l i f)[i]? = (l[i]?).map f := by
  intro l
  induction l with
  | nil => intro i f; cases i <;> simp [updAt]
  | cons a as ih =>
    intro i f
    cases i with
    | zero => simp [updAt]
    | succ n => simpa [updAt] using ih n f

theorem firstIdx_found {α : Type} (p : α → Bool) :
    ∀ (l : List α) (i : Nat), firstIdx p l = some i →
      ∃ a, l[i]? = some a ∧ p a = true := by
  intro l
  induction l with
  | nil => intro i h; simp [firstIdx] at h
  | cons a as ih =>
    intro i h
    by_cases hp : p a
    · simp [firstIdx, hp] at h
      exact ⟨a, by simp [← h], hp⟩
    · simp [firstIdx, hp] at h
      obtain ⟨j, hj, hji⟩ := h
      obtain ⟨b, hb, hpb⟩ := ih j hj
      exact ⟨b, by simp [← hji, hb], hpb⟩

/-- One unfolding of the loop on a non-terminator chunk, through the
branch selector. -/
theorem parseLoop_cons_not_term (term : Bool) (s : PState) (chunk : Str)
    (h : ¬(term = false ∧ chunk = s.cfg.optTerm)) :
    ∀ rest, parseLoop term s (chunk :: rest) =
      match stepChunk term s chunk rest.head? with
      | Step.ret r => r
      | Step.next s2 => parseLoop term s2 rest
      | Step.skip s2 => parseLoop term s2 rest.tail := by
  intro rest
  cases rest with
  | nil =>
    simp only [parseLoop]
    rw [if_neg h]
    cases hstep : stepChunk term s chunk none with
    | ret r => simp [hstep]
    | next s2 => simp [hstep, parseLoop]
    | skip s2 => simp [hstep, parseLoop]
  | cons next rest2 =>
    simp only [parseLoop]
    rw [if_neg h]
    rfl

/-- An empty configured separator always yields an unsplit chunk. -/
theorem longSplit_empty (argchunk : Str) : longSplit [] argchunk = (argchunk, none) := by
  simp [longSplit]

/-- A ret outcome of the long-flag branch always reports failure. -/
theorem handleLong_ret_false (s : PState) (a : Str) (nx : Option Str)
    (r : Bool × PState) (h : handleLong s a nx = Step.ret r) : r.1 = false := by
  simp only [handleLong] at h
  repeat' split at h
  all_goals first
    | (cases h; simp)
    | simp at h

/-- A next outcome of the long-flag branch does not touch the error. -/
theorem handleLong_next_error (s : PState) (a : Str) (nx : Option Str)
    (s2 : PState) (h : handleLong s a nx = Step.next s2) : s2.error = s.error := by
  simp only [handleLong] at h
  repeat' split at h
  all_goals first
    | (cases h; simp)
    | simp at h

/-- A skip outcome of the long-flag branch does not touch the error. -/
theorem handleLong_skip_error (s : PState) (a : Str) (nx : Option Str)
    (s2 : PState) (h : handleLong s a nx = Step.skip s2) : s2.error = s.error := by
  simp only [handleLong] at h
  repeat' split at h
  all_goals first
    | (cases h; simp)
    | simp at h

/-- A ret outcome of the short-flag branch always reports failure. -/
theorem handleShort_ret_false (s : PState) (a : Str) (nx : Option Str)
    (r : Bool × PState) (h : handleShort s a nx = Step.ret r) : r.1 = false := by
  simp only [handleShort] at h
  repeat' split at h
  all_goals first
    | (cases h; simp)
    | simp at h

/-- A next outcome of the short-flag branch does not touch the error. -/
theorem handleShort_next_error (s : PState) (a : Str) (nx : Option Str)
    (s2 : PState) (h : handleShort s a nx = Step.next s2) : s2.error = s.error := by
  simp only [handleShort] at h
  repeat' split at h
  all_goals first
    | (cases h; simp)
    | simp at h

/-- A skip outcome of the short-flag branch does not touch the error. -/
theorem handleShort_skip_error (s : PState) (a : Str) (nx : Option Str)
    (s2 : PState) (h : handleShort s a nx = Step.skip s2) : s2.error = s.error := by
  simp only [handleShort] at h
  repeat' split at h
  all_goals first
    | (cases h; simp)
    | simp at h

/-- A ret outcome of the positional branch always reports failure. -/
theorem handlePositional_ret_false (s : PState) (chunk : Str)
    (r : Bool × PState) (h : handlePositional s chunk = Step.ret r) :
    r.1 = false := by
  simp only [handlePositional] at h
  repeat' split at h
  all_goals first
    | (cases h; simp)
    | simp at h

/-- A next outcome of the positional branch does not touch the error. -/
theorem handlePositional_next_error (s : PState) (chunk : Str)
    (s2 : PState) (h : handlePositional s chunk = Step.next s2) :
    s2.error = s.error := by
  simp only [handlePositional] at h
  repeat' split at h
  all_goals first
    | (cases h; simp)
    | simp at h

/-- A ret outcome of the branch selector always reports failure. -/
theorem stepChunk_ret_false (term : Bool) (s : PState) (chunk : Str)
    (nx : Option Str) (r : Bool × PState)
    (h : stepChunk term s chunk nx = Step.ret r) : r.1 = false := by
  simp only [stepChunk] at h
  split at h
  · exact handleLong_ret_false s _ nx r h
  · split at h
    · exact handleShort_ret_false s _ nx r h
    · exact handlePositional_ret_false s chunk r h

/-- A next outcome of the branch selector does not touch the error. -/
theorem stepChunk_next_error (term : Bool) (s : PState) (chunk : Str)
    (nx : Option Str) (s2 : PState)
    (h : stepChunk term s chunk nx = Step.next s2) : s2.error = s.error := by
  simp only [stepChunk] at h
  split at h
  · exact handleLong_next_error s _ nx s2 h
  · split at h
    · exact handleShort_next_error s _ nx s2 h
    · exact handlePositional_next_error s chunk s2 h

/-- The positional branch continues the loop in place or returns: it
never consumes the following token. -/
theorem handlePositional_no_skip (s : PState) (chunk : Str) (s2 : PState) :
    handlePositional s chunk ≠ Step.skip s2 := by
  simp only [handlePositional]
  cases hnp : nextPosIdx s.positionals with
  | none => simp
  | some j =>
    simp only []
    split <;> simp

/-- A skip outcome of the branch selector does not touch the error. -/
theorem stepChunk_skip_error (term : Bool) (s : PState) (chunk : Str)
    (nx : Option Str) (s2 : PState)
    (h : stepChunk term s chunk nx = Step.skip s2) : s2.error = s.error := by
  simp only [stepChunk] at h
  split at h
  · exact handleLong_skip_error s _ nx s2 h
  · split at h
    · exact handleShort_skip_error s _ nx s2 h
    · exact absurd h (handlePositional_no_skip s chunk s2)

/-- A run of the loop that returns success never assigns the stored
error string. -/
theorem parseLoop_true_error :
    ∀ (n : Nat) (args : List Str), args.length ≤ n →
      ∀ (term : Bool) (s : PState),
        (parseLoop term s args).1 = true →
        (parseLoop term s args).2.error = s.error := by
  intro n
  induction n with
  | zero =>
    intro args hlen term s _
    have hnil : args = [] := List.length_eq_zero.mp (Nat.le_zero.mp hlen)
    subst hnil
    simp [parseLoop]
  | succ n ih =>
    intro args hlen term s htrue
    cases args with
    | nil => simp [parseLoop]
    | cons chunk rest =>
      have hrest : rest.length ≤ n := by
        simp only [List.length_cons] at hlen
        omega
      by_cases hterm : term = false ∧ chunk = s.cfg.optTerm
      · have heq : parseLoop term s (chunk :: rest) = parseLoop true s rest := by
          cases rest with
          | nil =>
            simp only [parseLoop]
            rw [if_pos hterm]
          | cons a as =>
            simp only [parseLoop]
            rw [if_pos hterm]
        rw [heq] at htrue ⊢
        exact ih rest hrest true s htrue
      · rw [parseLoop_cons_not_term term s chunk hterm rest] at htrue ⊢
        cases hstep : stepChunk term s chunk rest.head? with
        | ret r =>
          have hf := stepChunk_ret_false term s chunk rest.head? r hstep
          rw [hstep] at htrue
          have htrue2 : r.1 = true := htrue
          simp [hf] at htrue2
        | next s2 =>
          rw [hstep] at htrue
          have htrue2 : (parseLoop term s2 rest).1 = true := htrue
          show (parseLoop term s2 rest).2.error = s.error
          rw [ih rest hrest term s2 htrue2]
          exact stepChunk_next_error term s chunk rest.head? s2 hstep
        | skip s2 =>
          rw [hstep] at htrue
          have htrue2 : (parseLoop term s2 rest.tail).1 = true := htrue
          show (parseLoop term s2 rest.tail).2.error = s.error
          have htail : rest.tail.length ≤ n :=
            le_trans (by cases rest <;> simp) hrest
          rw [ih rest.tail htail term s2 htrue2]
          exact stepChunk_skip_error term s chunk rest.head? s2 hstep

/-- In the terminated state the branch selection always picks the
positional branch: no token resolves as a long flag or a short flag. -/
theorem stepChunk_terminated (s : PState) (chunk : Str) (nx : Option Str) :
    stepChunk true s chunk nx = handlePositional s chunk := by
  simp [stepChunk]

/-- One unfolding of the all-positional loop, through the shared
branch handler. -/
theorem parseAllPositional_cons (s : PState) (chunk : Str) (rest : List Str) :
    parseAllPositional s (chunk :: rest) =
      match handlePositional s chunk with
      | Step.ret r => r
      | Step.next s2 => parseAllPositional s2 rest
      | Step.skip s2 => parseAllPositional s2 rest := by
  simp only [parseAllPositional, handlePositional]
  cases hnp : nextPosIdx s.positionals with
  | none => simp
  | some j =>
    simp only []
    split <;> rfl

/-- In the terminated state every token is handled by the positional
rule only: the flag branches of the loop are all disabled. -/
theorem parseLoop_terminated :
    ∀ (args : List Str) (s : PState),
      parseLoop true s args = parseAllPositional s args := by
  intro args
  induction args with
  | nil => intro s; rfl
  | cons chunk rest ih =>
    intro s
    rw [parseAllPositional_cons]
    cases rest with
    | nil =>
      simp only [parseLoop]
      rw [if_neg (by simp), stepChunk_terminated]
      cases hstep : handlePositional s chunk with
      | ret r => simp
      | next s2 => simp [parseAllPositional]
      | skip s2 => exact absurd hstep (handlePositional_no_skip s chunk s2)
    | cons next rest2 =>
      simp only [parseLoop]
      rw [if_neg (by simp), stepChunk_terminated]
      cases hstep : handlePositional s chunk with
      | ret r => simp
      | next s2 => simpa using ih s2
      | skip s2 => exact absurd hstep (handlePositional_no_skip s chunk s2)

/-! Theorems for the claims. -/

/-- C1 counterexample: with the default configuration and a bool
option registered with matcher b, "bool", ParseArgs on the single
token "-b" does not return success: every option of this library is
value-bearing, so the flag demands a following argument. -/
theorem c1_counterexample :
    ¬ ((ParseArgs stBool [("-b".toList)]).1 = true) := by decide

/-- C1 amended: ParseArgs on the single token "-b" returns failure
with the missing-argument error, while the option is nevertheless left
with matched true, because SetMatched runs before the value lookup. -/
theorem c1_bool_flag_missing_value :
    (ParseArgs stBool [("-b".toList)]).1 = false ∧
    (ParseArgs stBool [("-b".toList)]).2.error = errMissingValue ['b'] ∧
    ((ParseArgs stBool [("-b".toList)]).2.options[0]?).map Opt.matched =
      some true := by decide

/-- C2 counterexample: the built-in string converter is not the
identity and does not always succeed: on the token "a b" the stream
extracts only "a", unread characters remain, and ParseValue fails. -/
theorem c2_counterexample :
    (parseValue Conv.cstr ("a b".toList)).1 = false := by decide

/-- Dropping through a block of elements that all satisfy the
predicate continues in the remainder of the list. -/
theorem dropWhile_append_all {α : Type} (p : α → Bool) :
    ∀ (w t : List α), (∀ c ∈ w, p c = true) →
      (w ++ t).dropWhile p = t.dropWhile p := by
  intro w
  induction w with
  | nil => intro t _; rfl
  | cons a as ih =>
    intro t h
    rw [List.cons_append, List.dropWhile_cons, if_pos (h a (by simp))]
    exact ih t (fun c hc => h c (by simp [hc]))

/-- C2 amended: the string converter succeeds exactly when the input
is optional leading whitespace followed by a nonempty run of
non-whitespace characters, and it stores that run: every such
decomposition parses to the run (so nonempty whitespace-free inputs
are stored unchanged), and every successful parse arises from such a
decomposition; in particular empty inputs and inputs with embedded
whitespace fail. -/
theorem c2_string_whitespace_characterization (s : Str) :
    (∀ w t, s = w ++ t → (∀ c ∈ w, isSpace c = true) → t ≠ [] →
      (∀ c ∈ t, isSpace c = false) →
      parseValue Conv.cstr s = (true, Val.vstr t)) ∧
    ((parseValue Conv.cstr s).1 = true →
      ∃ w t, s = w ++ t ∧ (∀ c ∈ w, isSpace c = true) ∧ t ≠ [] ∧
        ∀ c ∈ t, isSpace c = false) := by
  constructor
  · intro w t hs hw ht hns
    subst hs
    have h1 : (w ++ t).dropWhile isSpace = t := by
      rw [dropWhile_append_all isSpace w t hw]
      cases t with
      | nil => rfl
      | cons a as => rw [List.dropWhile_cons, if_neg (by simp [hns a (by simp)])]
    have h2 : t.takeWhile (fun c => !isSpace c) = t :=
      List.takeWhile_eq_self_iff.mpr (by intro c hc; simp [hns c hc])
    have h3 : t.dropWhile (fun c => !isSpace c) = [] :=
      List.dropWhile_eq_nil_iff.mpr (by intro c hc; simp [hns c hc])
    simp only [parseValue, sstreamExtract, extractStr, skipWS, h1, h2, h3]
    simp [ht]
  · intro hsucc
    simp only [parseValue, sstreamExtract, extractStr, skipWS] at hsucc
    by_cases htok :
        (s.dropWhile isSpace).takeWhile (fun c => !isSpace c) = []
    · simp [htok] at hsucc
    · simp only [htok, if_neg, if_false] at hsucc
      have hrest : (s.dropWhile isSpace).dropWhile (fun c => !isSpace c) = [] := by
        simpa using hsucc
      have hall : ∀ c ∈ s.dropWhile isSpace, isSpace c = false := by
        intro c hc
        have := (List.dropWhile_eq_nil_iff.mp hrest) c hc
        simpa using this
      have hne : s.dropWhile isSpace ≠ [] := by
        intro h0
        apply htok
        rw [h0]
        rfl
      refine ⟨s.takeWhile isSpace, s.dropWhile isSpace, ?_, ?_, hne, hall⟩
      · exact (List.takeWhile_append_dropWhile isSpace s).symm
      · intro c hc
        simpa using List.mem_takeWhile_imp hc

/-- C2 witness: a token with leading whitespace parses to its
non-whitespace run, by the forward direction of the
characterization. -/
theorem c2_witness :
    parseValue Conv.cstr ("  abc".toList) = (true, Val.vstr ("abc".toList)) :=
  (c2_string_whitespace_characterization ("  abc".toList)).1
    ("  ".toList) ("abc".toList) (by decide) (by decide) (by decide) (by decide)

/-- C3: for every built-in converter and every raw string, ParseValue
succeeds exactly when the extraction left no unread characters in the
buffer and did not set the fail state. -/
theorem c3_parse_value_full_consumption (c : Conv) (s : Str) :
    (parseValue c s).1 = true ↔
      ((sstreamExtract c s).2.1 = [] ∧ (sstreamExtract c s).2.2 = false) := by
  simp only [parseValue]
  rcases h : sstreamExtract c s with ⟨v, rest, fail⟩
  cases rest <;> cases fail <;> simp

/-- C8: with a single unsigned positional (default 17) and the default
prefixes, the token "42" parses as the positional with value 42, while
"-42" is attempted as a short-flag cluster and fails with the
flag-not-matched error on the character 4. -/
theorem c8_positional_vs_short_cluster :
    ((ParseArgs stUInt [("42".toList)]).1 = true ∧
      ((ParseArgs stUInt [("42".toList)]).2.positionals[0]?).map Pos.val =
        some (Val.vuint 42)) ∧
    ((ParseArgs stUInt [("-42".toList)]).1 = false ∧
      (ParseArgs stUInt [("-42".toList)]).2.error = errUnmatched ['4']) := by
  decide

/-- C4: consuming the configured terminator makes the rest of the parse
follow the positional rule alone, so no later token is resolved as a
long flag, a short flag, or a terminator; concretely, parsing the list
"--", "-b" with the bool option and a string positional declared
stores "-b" in the positional and leaves the option unmatched. -/
theorem c4_terminator_forces_positional :
    (∀ (s : PState) (rest : List Str),
        ParseArgs s (s.cfg.optTerm :: rest) = parseAllPositional s rest) ∧
    ((ParseArgs stTerm [("--".toList), ("-b".toList)]).1 = true ∧
      ((ParseArgs stTerm [("--".toList), ("-b".toList)]).2.positionals[0]?).map
          Pos.val = some (Val.vstr ("-b".toList)) ∧
      ((ParseArgs stTerm [("--".toList), ("-b".toList)]).2.options[0]?).map
          Opt.matched = some false) := by
  constructor
  · intro s rest
    show parseLoop false s (s.cfg.optTerm :: rest) = _
    cases rest with
    | nil =>
      simp only [parseLoop]
      rw [if_pos (by exact ⟨by trivial, by trivial⟩)]
      exact parseLoop_terminated [] s
    | cons a as =>
      simp only [parseLoop]
      rw [if_pos (by exact ⟨by trivial, by trivial⟩)]
      exact parseLoop_terminated (a :: as) s
  · decide

/-- C5: a long-flag token that matches an option and carries no inline
value, standing as the last token of the input, makes ParseArgs fail
with the requires-an-argument error, since every option of this
library is value-bearing. -/
theorem c5_missing_value_at_end (s : PState) (chunk name : Str) (i : Nat)
    (hterm : chunk ≠ s.cfg.optTerm)
    (hlong : IsLongToken s.cfg chunk)
    (hsplit : longSplit s.cfg.longSep (chunk.drop s.cfg.longPfx.length) =
      (name, none))
    (hmatch : matchLongIdx s.options name = some i) :
    (ParseArgs s [chunk]).1 = false ∧
      (ParseArgs s [chunk]).2.error = errMissingValue name := by
  have hstep : stepChunk false s chunk none =
      Step.ret (false, setError (setOptMatched s i) (errMissingValue name)) := by
    simp only [stepChunk]
    rw [if_pos (by exact ⟨by trivial, hlong⟩)]
    simp only [handleLong, hsplit]
    rw [hmatch]
  simp only [ParseArgs]
  rw [parseLoop_cons_not_term false s chunk (by simp [hterm]) []]
  simp [hstep]

/-- C5 witness: the double option of the test program on the input
consisting of the single token "--double". -/
theorem c5_witness :
    (ParseArgs stDouble [("--double".toList)]).1 = false ∧
      (ParseArgs stDouble [("--double".toList)]).2.error =
        errMissingValue ("double".toList) :=
  c5_missing_value_at_end stDouble ("--double".toList) ("double".toList) 0
    (by decide) (by decide) (by decide) (by decide)

/-- C6: a long-flag token of the form prefix, name, separator, value,
where the name matches an option and the value converts with full
consumption, parses successfully under the default joined-long policy;
the option ends matched with the converted value stored.  The split
hypothesis states that the token decomposes at the first separator
occurrence into exactly this name and value. -/
theorem c6_joined_long_value (s : PState) (chunk name value : Str) (i : Nat)
    (o : Opt) (v : Val)
    (hterm : chunk ≠ s.cfg.optTerm)
    (hlong : IsLongToken s.cfg chunk)
    (hsplit : longSplit s.cfg.longSep (chunk.drop s.cfg.longPfx.length) =
      (name, some value))
    (hmatch : matchLongIdx s.options name = some i)
    (hjoined : s.cfg.joinedLong = true)
    (hopt : s.options[i]? = some o)
    (hconv : parseValue o.conv value = (true, v)) :
    (ParseArgs s [chunk]).1 = true ∧
      (ParseArgs s [chunk]).2.options[i]? =
        some { o with matched := true, val := v } := by
  have h1 : (setOptMatched s i).options[i]? = some { o with matched := true } := by
    simp [setOptMatched, updAt_get, hopt]
  have h2 : optConv (setOptMatched s i) i = o.conv := by
    simp [optConv, h1]
  have hstep : stepChunk false s chunk none =
      Step.next (setOptVal (setOptMatched s i) i v) := by
    simp only [stepChunk]
    rw [if_pos (by exact ⟨by trivial, hlong⟩)]
    simp only [handleLong, hsplit]
    rw [hmatch]
    simp [hjoined, h2, hconv]
  simp only [ParseArgs]
  rw [parseLoop_cons_not_term false s chunk (by simp [hterm]) []]
  simp only [List.head?, hstep]
  refine ⟨rfl, ?_⟩
  simp [parseLoop, setOptVal, updAt_get, h1]

/-- C6 witness: the double option of the test program with default 25
on the single token made of the long prefix, double, =, 3.5; the
parse succeeds and the stored value is the rational 7/2, that is 3.5. -/
theorem c6_witness :
    (ParseArgs stDouble [("--double=3.5".toList)]).1 = true ∧
      (ParseArgs stDouble [("--double=3.5".toList)]).2.options[0]? =
        some { optDouble with matched := true, val := Val.vdouble (mkRat 7 2) } :=
  c6_joined_long_value stDouble ("--double=3.5".toList) ("double".toList)
    ("3.5".toList) 0 optDouble (Val.vdouble (mkRat 7 2))
    (by decide) (by decide) (by decide) (by decide) (by decide) (by decide)
    (by decide)

/-- C7: an empty configured long separator disables inline splitting
entirely: the split of every long chunk yields the whole chunk and no
inline value, and consequently a matched value-bearing long option
consumes the following token of the stream as its separate value. -/
theorem c7_empty_separator_no_split :
    (∀ argchunk : Str, longSplit [] argchunk = (argchunk, none)) ∧
    (∀ (s : PState) (chunk next : Str) (rest : List Str) (i : Nat) (o : Opt)
        (v : Val),
      s.cfg.longSep = [] →
      chunk ≠ s.cfg.optTerm →
      IsLongToken s.cfg chunk →
      matchLongIdx s.options (chunk.drop s.cfg.longPfx.length) = some i →
      s.options[i]? = some o →
      s.cfg.separateLong = true →
      parseValue o.conv next = (true, v) →
      ParseArgs s (chunk :: next :: rest) =
        parseLoop false (setOptVal (setOptMatched s i) i v) rest) := by
  constructor
  · exact longSplit_empty
  · intro s chunk next rest i o v hsep hterm hlong hmatch hopt hsepl hconv
    have h1 : (setOptMatched s i).options[i]? = some { o with matched := true } := by
      simp [setOptMatched, updAt_get, hopt]
    have h2 : optConv (setOptMatched s i) i = o.conv := by
      simp [optConv, h1]
    have hs : longSplit s.cfg.longSep (chunk.drop s.cfg.longPfx.length) =
        ((chunk.drop s.cfg.longPfx.length), none) := by
      rw [hsep]
      exact longSplit_empty _
    have hstep : stepChunk false s chunk (some next) =
        Step.skip (setOptVal (setOptMatched s i) i v) := by
      simp only [stepChunk]
      rw [if_pos (by exact ⟨by trivial, hlong⟩)]
      simp only [handleLong, hs]
      rw [hmatch]
      simp [hsepl, h2, hconv]
    simp only [ParseArgs]
    rw [parseLoop_cons_not_term false s chunk (by simp [hterm]) (next :: rest)]
    simp [hstep]

/-- C7 witness: with the separator configured empty and the double
option registered, the token made of the long prefix and double,
followed by the token 3.5, consumes 3.5 as the separate value. -/
theorem c7_witness :
    ParseArgs stNoSep [("--double".toList), ("3.5".toList)] =
      parseLoop false
        (setOptVal (setOptMatched stNoSep 0) 0 (Val.vdouble (mkRat 7 2))) [] :=
  c7_empty_separator_no_split.2 stNoSep ("--double".toList) ("3.5".toList) []
    0 optDouble (Val.vdouble (mkRat 7 2)) (by decide) (by decide) (by decide)
    (by decide) (by decide) (by decide) (by decide)

/-- C9: when a matched option receives a joined value whose conversion
fails, the parse fails but the option is left matched, because
SetMatched runs before the conversion; when a positional receives a
token whose conversion fails, the parse fails and the positional is
left unmatched, because positionals are marked only after a successful
conversion. -/
theorem c9_matched_state_on_invalid_value :
    (∀ (s : PState) (chunk name value : Str) (rest : List Str) (i : Nat)
        (o : Opt) (v : Val),
      chunk ≠ s.cfg.optTerm →
      IsLongToken s.cfg chunk →
      longSplit s.cfg.longSep (chunk.drop s.cfg.longPfx.length) =
        (name, some value) →
      matchLongIdx s.options name = some i →
      s.options[i]? = some o →
      s.cfg.joinedLong = true →
      parseValue o.conv value = (false, v) →
      (ParseArgs s (chunk :: rest)).1 = false ∧
        ((ParseArgs s (chunk :: rest)).2.options[i]?).map Opt.matched =
          some true) ∧
    (∀ (s : PState) (chunk : Str) (rest : List Str) (j : Nat) (p : Pos)
        (v : Val),
      chunk ≠ s.cfg.optTerm →
      ¬ IsLongToken s.cfg chunk →
      ¬ IsShortToken s.cfg chunk →
      nextPosIdx s.positionals = some j →
      s.positionals[j]? = some p →
      parseValue p.conv chunk = (false, v) →
      (ParseArgs s (chunk :: rest)).1 = false ∧
        ((ParseArgs s (chunk :: rest)).2.positionals[j]?).map Pos.matched =
          some false) := by
  constructor
  · intro s chunk name value rest i o v hterm hlong hsplit hmatch hopt
      hjoined hconv
    have h1 : (setOptMatched s i).options[i]? =
        some { o with matched := true } := by
      simp [setOptMatched, updAt_get, hopt]
    have h2 : optConv (setOptMatched s i) i = o.conv := by
      simp [optConv, h1]
    have hstep : stepChunk false s chunk rest.head? =
        Step.ret (false, setError (setOptVal (setOptMatched s i) i v)
          (errInvalidValue name)) := by
      simp only [stepChunk]
      rw [if_pos (by exact ⟨by trivial, hlong⟩)]
      simp only [handleLong, hsplit]
      rw [hmatch]
      simp [hjoined, h2, hconv]
    simp only [ParseArgs]
    rw [parseLoop_cons_not_term false s chunk (by simp [hterm]) rest]
    rw [hstep]
    refine ⟨rfl, ?_⟩
    simp [setOptVal, updAt_get, h1]
  · intro s chunk rest j p v hterm hlong hshort hnext hp hconv
    have hpc : posConv s j = p.conv := by
      simp [posConv, hp]
    have hpm : p.matched = false := by
      obtain ⟨a, ha, hpa⟩ := firstIdx_found _ s.positionals j hnext
      rw [hp] at ha
      cases ha
      simpa using hpa
    have hstep : stepChunk false s chunk rest.head? =
        Step.ret (false, setError (setPosVal s j v)
          (errInvalidPositional (posName s j))) := by
      simp only [stepChunk]
      rw [if_neg (by simp [hlong]), if_neg (by simp [hshort])]
      simp only [handlePositional]
      rw [hnext]
      simp [hpc, hconv]
    simp only [ParseArgs]
    rw [parseLoop_cons_not_term false s chunk (by simp [hterm]) rest]
    rw [hstep]
    refine ⟨rfl, ?_⟩
    simp [setPosVal, updAt_get, hp, hpm]

/-- C9 witness: the invalid joined value abc for the double option
leaves it matched after the failed parse, while the invalid positional
token abc for the unsigned positional leaves it unmatched. -/
theorem c9_witness :
    ((ParseArgs stDouble [("--double=abc".toList)]).1 = false ∧
      ((ParseArgs stDouble [("--double=abc".toList)]).2.options[0]?).map
        Opt.matched = some true) ∧
    ((ParseArgs stUInt [("abc".toList)]).1 = false ∧
      ((ParseArgs stUInt [("abc".toList)]).2.positionals[0]?).map
        Pos.matched = some false) :=
  ⟨c9_matched_state_on_invalid_value.1 stDouble ("--double=abc".toList)
      ("double".toList) ("abc".toList) [] 0 optDouble (Val.vdouble 0)
      (by decide) (by decide) (by decide) (by decide) (by decide) (by decide)
      (by decide),
    c9_matched_state_on_invalid_value.2 stUInt ("abc".toList) [] 0 posUInt
      (Val.vuint 0) (by decide) (by decide) (by decide) (by decide)
      (by decide) (by decide)⟩

/-- C10: a call of ParseArgs that returns true never assigns the
stored error string, so Error() still returns whatever it held before
the call, including the message of an earlier failed parse. -/
theorem c10_error_untouched_on_success (s : PState) (args : List Str)
    (h : (ParseArgs s args).1 = true) :
    (ParseArgs s args).2.error = s.error :=
  parseLoop_true_error args.length args (le_refl _) false s h

/-- C10 witness: a successful parse of the token 42 on a parser whose
error string still holds a stale unmatched-flag message leaves that
message in place. -/
theorem c10_witness :
    (ParseArgs stStale [("42".toList)]).1 = true ∧
      (ParseArgs stStale [("42".toList)]).2.error = stStale.error :=
  ⟨by decide,
    c10_error_untouched_on_success stStale [("42".toList)] (by decide)⟩

end Argsplus
